import Mathlib

/-
Verification of the StrokeScribbler core geometry pipeline
(source: src/lib/main.py).

The development shallowly embeds:
  * StrokeFlattener (a custom FlattenPen/SamplingPen hybrid): distance-driven
    and reference-map-driven contour sampling, with the segmentRefrenceMap
    bookkeeping (the field name keeps the source's spelling);
  * the weave loop of StrokeScribblerDrawingBot.draw that interleaves the two
    flattened polylines into the zigzag stroke;
  * PerlinPen / perlinGlyph (noise displacement of a polyline);
  * PerlinNoiseFactory (coherent 2D gradient noise with a lazily populated
    gradient cache; the random gradient draws are modelled by an explicit
    supply stream threaded through the state).

Python floats are modelled as real numbers; Python exceptions as an explicit
Except with a small error inductive.  round() uses Python 3 half-to-even.
The helpers distance, interpolatePoint, getCubicPoint and
estimateCubicCurveLength come from the external fontPens.penTools library and
are modelled by their library definitions (chord-sum length estimate with
precision 10, de Casteljau cubic evaluation).
-/

namespace StrokeScribbler

/-! ## Basic data model -/

/-- A 2D point with real coordinates (Python tuples of floats). -/
abbrev Point : Type := ℝ × ℝ

/-- Python exceptions that the embedded code can raise.  A missing key in the
reference step map (Python KeyError) is the spec's AlignmentError. -/
inductive PyErr : Type
  | keyError
  | zeroDivision
  | typeError
  | notImplemented
  deriving DecidableEq

/-- Pen operations received by the wrapped otherPen. -/
inductive PenOp : Type
  | moveTo (p : Point)
  | lineTo (p : Point)
  | closePath
  | endPath

/-- Contour segments fed to a pen (the tagged-variant view of pen calls). -/
inductive Seg : Type
  | moveTo (p : Point)
  | lineTo (p : Point)
  | curveTo (p1 p2 p3 : Point)
  | close
  | Eend

/-! ## fontPens.penTools helpers (external library, modelled by their code) -/

/-- penTools.distance: Euclidean distance. -/
noncomputable def pyDistance (a b : Point) : ℝ :=
  Real.sqrt ((a.1 - b.1) ^ 2 + (a.2 - b.2) ^ 2)

/-- penTools.interpolatePoint with a scalar factor. -/
noncomputable def interpolatePoint (a b : Point) (v : ℝ) : Point :=
  (a.1 + (b.1 - a.1) * v, a.2 + (b.2 - a.2) * v)

/-- penTools.getCubicPoint: de Casteljau evaluation of a cubic Bezier, with
the t = 0 and t = 1 shortcuts of the library code. -/
noncomputable def getCubicPoint (t : ℝ) (pt0 pt1 pt2 pt3 : Point) : Point :=
  if t = 0 then pt0
  else if t = 1 then pt3
  else
    interpolatePoint (interpolatePoint (interpolatePoint pt0 pt1 t) (interpolatePoint pt1 pt2 t) t)
      (interpolatePoint (interpolatePoint pt1 pt2 t) (interpolatePoint pt2 pt3 t) t) t

/-- penTools.estimateCubicCurveLength with the default precision 10:
sum of the 10 chord lengths between samples at t = i/10. -/
noncomputable def estimateCubicCurveLength (pt0 pt1 pt2 pt3 : Point) : ℝ :=
  ((List.range 10).map (fun i =>
    pyDistance (getCubicPoint ((i : ℝ) / 10) pt0 pt1 pt2 pt3)
      (getCubicPoint (((i : ℝ) + 1) / 10) pt0 pt1 pt2 pt3))).sum

/-- Python 3 round() on a real value: round half to even, as an integer. -/
noncomputable def pyRound (x : ℝ) : ℤ :=
  if x - ⌊x⌋ < 1 / 2 then ⌊x⌋
  else if 1 / 2 < x - ⌊x⌋ then ⌊x⌋ + 1
  else if ⌊x⌋ % 2 = 0 then ⌊x⌋ else ⌊x⌋ + 1

/-! ## StrokeFlattener -/

/-- The `approximateSegmentLength` argument of StrokeFlattener: a dict of
per-segment step counts (reference mode) or a target distance. -/
inductive Policy : Type
  | refMap (m : ℕ → Option ℕ)
  | dist (L : ℝ)

/-- The mutable state of a StrokeFlattener instance, together with the
pen operations already forwarded to otherPen. -/
structure StrokeFlattener : Type where
  currentPt : Option Point
  firstPt : Option Point
  index : ℕ
  segmentRefrenceMap : ℕ → Option ℕ
  ops : List PenOp

/-- Fresh flattener state (\_\_init\_\_): no current/first point, index 0,
empty segmentRefrenceMap, nothing forwarded yet. -/
def initFlattener : StrokeFlattener :=
  { currentPt := none
    firstPt := none
    index := 0
    segmentRefrenceMap := fun _ => none
    ops := [] }

/-- StrokeFlattener.\_lineTo.  In reference mode the step count is looked up in
the supplied dict (KeyError when absent, ZeroDivisionError on steps = 0 from
`step = 1.0 / steps`); in distance mode the step count is
int(round(d / approximateSegmentLength)) and, when that clamps below 1, the
target point is emitted directly and no segmentRefrenceMap entry is written. -/
noncomputable def flatLineTo (pol : Policy) (fd : Bool) (s : StrokeFlattener) (pt : Point) :
    Except PyErr StrokeFlattener :=
  if fd = true ∧ s.currentPt = some pt then Except.ok s
  else
    match pol with
    | Policy.refMap m =>
        match m (s.index + 1) with
        | none => Except.error PyErr.keyError
        | some steps =>
            if steps = 0 then Except.error PyErr.zeroDivision
            else
              match s.currentPt with
              | none => Except.error PyErr.typeError
              | some c =>
                  Except.ok { s with
                    index := s.index + 1
                    currentPt := some pt
                    ops := s.ops ++ (List.range steps).map (fun (k : ℕ) =>
                      PenOp.lineTo (interpolatePoint c pt ((k + 1 : ℝ) / (steps : ℝ)))) }
    | Policy.dist L =>
        match s.currentPt with
        | none => Except.error PyErr.typeError
        | some c =>
            let maxSteps : ℤ := pyRound (pyDistance c pt / L)
            if maxSteps < 1 then
              Except.ok { s with
                index := s.index + 1
                currentPt := some pt
                ops := s.ops ++ [PenOp.lineTo pt] }
            else
              Except.ok { s with
                index := s.index + 1
                currentPt := some pt
                segmentRefrenceMap := fun j =>
                  if j = s.index + 1 then some maxSteps.toNat else s.segmentRefrenceMap j
                ops := s.ops ++ (List.range maxSteps.toNat).map (fun (k : ℕ) =>
                  PenOp.lineTo (interpolatePoint c pt ((k + 1 : ℝ) / (maxSteps.toNat : ℝ)))) }

/-- StrokeFlattener.\_curveToOne.  A "false curve" (first control point equal
to the current point and second control point equal to the end point)
delegates to \_lineTo before the index is incremented; the duplicated
falseCurve test inside the reference branch of the source is unreachable
there and is therefore not repeated.  Distance mode estimates the arc length
with estimateCubicCurveLength and, like the line case, writes no map entry
when the step count clamps below 1. -/
noncomputable def flatCurveToOne (pol : Policy) (fd : Bool) (s : StrokeFlattener)
    (p1 p2 p3 : Point) : Except PyErr StrokeFlattener :=
  if s.currentPt = some p1 ∧ p2 = p3 then flatLineTo pol fd s p3
  else
    match pol with
    | Policy.refMap m =>
        match m (s.index + 1) with
        | none => Except.error PyErr.keyError
        | some steps =>
            if steps = 0 then Except.error PyErr.zeroDivision
            else
              match s.currentPt with
              | none => Except.error PyErr.typeError
              | some c =>
                  Except.ok { s with
                    index := s.index + 1
                    currentPt := some p3
                    ops := s.ops ++ (List.range steps).map (fun (k : ℕ) =>
                      PenOp.lineTo (getCubicPoint ((k + 1 : ℝ) / (steps : ℝ)) c p1 p2 p3)) }
    | Policy.dist L =>
        match s.currentPt with
        | none => Except.error PyErr.typeError
        | some c =>
            let maxSteps : ℤ := pyRound (estimateCubicCurveLength c p1 p2 p3 / L)
            if maxSteps < 1 then
              Except.ok { s with
                index := s.index + 1
                currentPt := some p3
                ops := s.ops ++ [PenOp.lineTo p3] }
            else
              Except.ok { s with
                index := s.index + 1
                currentPt := some p3
                segmentRefrenceMap := fun j =>
                  if j = s.index + 1 then some maxSteps.toNat else s.segmentRefrenceMap j
                ops := s.ops ++ (List.range maxSteps.toNat).map (fun (k : ℕ) =>
                  PenOp.lineTo (getCubicPoint ((k + 1 : ℝ) / (maxSteps.toNat : ℝ)) c p1 p2 p3)) }

/-- One pen call processed by the StrokeFlattener (\_moveTo, \_lineTo,
\_curveToOne, \_closePath, \_endPath).  \_closePath replays a lineTo back to
the first point before forwarding closePath; without any preceding moveTo the
replayed lineTo(None) is dropped by the doubles filter when the current point
is also None, and fails in Python otherwise. -/
noncomputable def segStep (pol : Policy) (fd : Bool) (s : StrokeFlattener) :
    Seg → Except PyErr StrokeFlattener
  | Seg.moveTo p =>
      Except.ok { s with
        currentPt := some p
        firstPt := some p
        ops := s.ops ++ [PenOp.moveTo p] }
  | Seg.lineTo p => flatLineTo pol fd s p
  | Seg.curveTo p1 p2 p3 => flatCurveToOne pol fd s p1 p2 p3
  | Seg.close =>
      match s.firstPt with
      | some fp =>
          match flatLineTo pol fd s fp with
          | Except.error e => Except.error e
          | Except.ok s2 =>
              Except.ok { s2 with
                ops := s2.ops ++ [PenOp.closePath]
                currentPt := none }
      | none =>
          if fd = true ∧ s.currentPt = none then
            Except.ok { s with
              ops := s.ops ++ [PenOp.closePath]
              currentPt := none }
          else Except.error PyErr.typeError
  | Seg.Eend =>
      Except.ok { s with
        ops := s.ops ++ [PenOp.endPath]
        currentPt := none }

/-- Sequential processing of a pen-call stream; a raised exception aborts the
remaining calls and propagates to the caller. -/
noncomputable def flattenAux (pol : Policy) (fd : Bool) :
    StrokeFlattener → List Seg → Except PyErr StrokeFlattener
  | s, [] => Except.ok s
  | s, seg :: rest =>
      match segStep pol fd s seg with
      | Except.error e => Except.error e
      | Except.ok s2 => flattenAux pol fd s2 rest

/-- Flattening a whole contour with a fresh StrokeFlattener. -/
noncomputable def flatten (pol : Policy) (fd : Bool) (segs : List Seg) :
    Except PyErr StrokeFlattener :=
  flattenAux pol fd initFlattener segs

/-- Number of lineTo operations forwarded to otherPen: the sampled points of
the flattening (the initial moveTo point is not a sampled point). -/
def countLineTo (ops : List PenOp) : ℕ :=
  ops.countP (fun op => match op with | PenOp.lineTo _ => true | _ => false)

/-- A per-segment non-degeneracy condition on a run of lineTo/curveTo pen
calls: every segment's end point differs from the end point of the previous
segment (starting from the given current point).  Under this condition the
doubles filter never drops a segment, whatever `filterDoubles` is.  Any other
pen call makes the predicate false, so it also pins the run down to
line/curve segments only. -/
def noDrops : Point → List Seg → Prop
  | _, [] => True
  | c, Seg.lineTo p :: rest => p ≠ c ∧ noDrops p rest
  | c, Seg.curveTo _ _ p3 :: rest => p3 ≠ c ∧ noDrops p3 rest
  | _, Seg.moveTo _ :: _ => False
  | _, Seg.close :: _ => False
  | _, Seg.Eend :: _ => False

/-- Sum of the n step-map values at indices start+1, ..., start+n (getD 0
outside the map's domain).  stepSum m 0 S is the "sum of the map's values"
for a map whose domain is exactly 1..S. -/
def stepSum (m : ℕ → Option ℕ) (start : ℕ) : ℕ → ℕ
  | 0 => 0
  | n + 1 => (m (start + 1)).getD 0 + stepSum m (start + 1) n

/-! ## The weave loop of StrokeScribblerDrawingBot.draw

The interleaving of the two flattened polylines (main.py lines 1016-1031):
the pen first moves to ps1[0] and that point is appended to the output list;
then for every index i of ps1 the loop appends ps2[i + offset] and ps1[i],
skipping the iteration entirely when ps2[i + offset] raises IndexError.
The loop does no arithmetic on the points, so it is embedded polymorphically;
an empty ps1 makes the initial ps1[0] lookup fail (IndexError), modelled by
none. -/

/-- The body of the weave loop: iteration i appends ps2[i + offset] then the
current ps1 element, or nothing when the ps2 index is out of range. -/
def weaveLoop {α : Type} (ps2 : List α) (off : ℕ) : ℕ → List α → List α
  | _, [] => []
  | i, p :: rest =>
      (match ps2.get? (i + off) with
       | some q => [q, p]
       | none => []) ++ weaveLoop ps2 off (i + 1) rest

/-- The weave operation: optional side swap, initial ps1[0], then the loop
over all of ps1 (the enumeration starts at index 0, so ps1[0] also
participates in the first loop iteration). -/
def weave {α : Type} (psA psB : List α) (off : ℕ) (sideSwap : Bool) : Option (List α) :=
  let ps1 := if sideSwap then psB else psA
  let ps2 := if sideSwap then psA else psB
  match ps1 with
  | [] => none
  | p0 :: _ => some (p0 :: weaveLoop ps2 off 0 ps1)

/-! ## PerlinNoiseFactory

The 2-dimensional instantiation used by the tool (dimension is fixed at 2 by
every construction site).  The lazily generated random gradients are modelled
by a supply stream of raw Gaussian pairs together with a counter; a fresh
factory carries a fresh stream, so distinct instances stay independent while
one instance is fully deterministic in its state. -/

/-- smoothstep from the source. -/
def smoothstep (t : ℝ) : ℝ := t * t * (3 - 2 * t)

/-- lerp from the source. -/
def lerp (t a b : ℝ) : ℝ := a + t * (b - a)

/-- math.atan2. -/
noncomputable def atan2 (y x : ℝ) : ℝ :=
  if 0 < x then Real.arctan (y / x)
  else if x < 0 then
    (if 0 ≤ y then Real.arctan (y / x) + Real.pi else Real.arctan (y / x) - Real.pi)
  else if 0 < y then Real.pi / 2
  else if y < 0 then -(Real.pi / 2)
  else 0

/-- calcAngle from the source: atan2 of the coordinate differences from the
first argument to the second. -/
noncomputable def calcAngle (pt1 pt2 : Point) : ℝ :=
  atan2 (pt2.2 - pt1.2) (pt2.1 - pt1.1)

/-- calcMidPoint from the source. -/
noncomputable def calcMidPoint (pt1 pt2 : Point) : Point :=
  (lerp (1 / 2) pt1.1 pt2.1, lerp (1 / 2) pt1.2 pt2.2)

/-- Python a % b for floats (floored modulo). -/
noncomputable def pyMod (a b : ℝ) : ℝ := a - b * ⌊a / b⌋

/-- State of a PerlinNoiseFactory instance with dimension 2: the constructor
parameters, the lazily populated gradient dict, and the random source
(supply stream plus position). -/
structure PerlinNoiseFactory : Type where
  octaves : ℕ
  tileX : ℝ
  tileY : ℝ
  unbias : Bool
  gradient : ℤ × ℤ → Option (ℝ × ℝ)
  supply : ℕ → ℝ × ℝ
  counter : ℕ

/-- scale_factor for dimension 2: 2 * 2 ** -0.5. -/
noncomputable def scaleFactor : ℝ := 2 * (Real.sqrt 2)⁻¹

/-- PerlinNoiseFactory.\_generate\_gradient for dimension 2: normalise a raw
Gaussian pair to the unit circle (sum of squares ** -0.5 as the scale). -/
noncomputable def generateGradient (raw : ℝ × ℝ) : ℝ × ℝ :=
  (raw.1 * (Real.sqrt (raw.1 ^ 2 + raw.2 ^ 2))⁻¹,
   raw.2 * (Real.sqrt (raw.1 ^ 2 + raw.2 ^ 2))⁻¹)

/-- The cache block inside get\_plain\_noise: if the grid point has no cached
gradient, generate one (consuming the random supply) and store it; a cached
gradient is returned unchanged. -/
noncomputable def ensureGradient (s : PerlinNoiseFactory) (gp : ℤ × ℤ) :
    (ℝ × ℝ) × PerlinNoiseFactory :=
  match s.gradient gp with
  | some g => (g, s)
  | none =>
      let g := generateGradient (s.supply s.counter)
      (g, { s with
        gradient := fun q => if q = gp then some g else s.gradient q
        counter := s.counter + 1 })

/-- Dot product of a corner gradient with the offset from that corner to the
query point. -/
def gridDot (g : ℝ × ℝ) (x y : ℝ) (gx gy : ℤ) : ℝ :=
  g.1 * (x - gx) + g.2 * (y - gy)

/-- PerlinNoiseFactory.get\_plain\_noise for dimension 2.  The four cell
corners are visited in the itertools.product order (x0,y0), (x0,y1), (x1,y0),
(x1,y1); the dot products are then collapsed by smoothstep-weighted lerps,
first along y, then along x, and scaled by scale\_factor. -/
noncomputable def getPlainNoise (x y : ℝ) (s : PerlinNoiseFactory) :
    ℝ × PerlinNoiseFactory :=
  let x0 : ℤ := ⌊x⌋
  let y0 : ℤ := ⌊y⌋
  let r00 := ensureGradient s (x0, y0)
  let r01 := ensureGradient r00.2 (x0, y0 + 1)
  let r10 := ensureGradient r01.2 (x0 + 1, y0)
  let r11 := ensureGradient r10.2 (x0 + 1, y0 + 1)
  let d00 := gridDot r00.1 x y x0 y0
  let d01 := gridDot r01.1 x y x0 (y0 + 1)
  let d10 := gridDot r10.1 x y (x0 + 1) y0
  let d11 := gridDot r11.1 x y (x0 + 1) (y0 + 1)
  let sy := smoothstep (y - y0)
  let sx := smoothstep (x - x0)
  (lerp sx (lerp sy d00 d01) (lerp sy d10 d11) * scaleFactor, r11.2)

/-- The octave loop of PerlinNoiseFactory.\_\_call\_\_: octave o scales the
coordinates by 2^o (taken modulo tile * 2^o when the tile period is nonzero,
Python truthiness of self.tile[i]), adds the plain noise divided by 2^o, and
threads the gradient cache through. -/
noncomputable def pnfOctaves (x y tX tY : ℝ) :
    List ℕ → ℝ → PerlinNoiseFactory → ℝ × PerlinNoiseFactory
  | [], acc, s => (acc, s)
  | o :: os, acc, s =>
      let o2 : ℝ := 2 ^ o
      let nx := if tX = 0 then x * o2 else pyMod (x * o2) (tX * o2)
      let ny := if tY = 0 then y * o2 else pyMod (y * o2) (tY * o2)
      let r := getPlainNoise nx ny s
      pnfOctaves x y tX tY os (acc + r.1 / o2) r.2

/-- Iterated smoothstep used by the unbias post-processing. -/
def smoothIter : ℕ → ℝ → ℝ
  | 0, r => r
  | n + 1, r => smoothIter n (smoothstep r)

/-- PerlinNoiseFactory.\_\_call\_\_ with a 2D point: sum the octaves,
normalise by 2 - 2^(1-octaves), and optionally unbias by
int(octaves / 2 + 0.5) smoothstep passes on the [0,1] remap. -/
noncomputable def pnfCall (s : PerlinNoiseFactory) (x y : ℝ) :
    ℝ × PerlinNoiseFactory :=
  let r := pnfOctaves x y s.tileX s.tileY (List.range s.octaves) 0 s
  let ret := r.1 / (2 - (2 : ℝ) ^ ((1 : ℤ) - (s.octaves : ℤ)))
  (if s.unbias then smoothIter ((s.octaves + 1) / 2) ((ret + 1) / 2) * 2 - 1 else ret,
   r.2)

/-- Cache extension order between factory states: every gradient already
cached keeps exactly its value.  This is the sense in which a gradient, once
generated for a lattice point, is never overwritten. -/
def cacheLE (s t : PerlinNoiseFactory) : Prop :=
  ∀ q g, s.gradient q = some g → t.gradient q = some g

/-- The constructor parameters of a factory are never touched by sampling;
only the gradient cache and the supply position evolve. -/
def paramsEq (s t : PerlinNoiseFactory) : Prop :=
  t.octaves = s.octaves ∧ t.tileX = s.tileX ∧ t.tileY = s.tileY ∧ t.unbias = s.unbias

/-! ## PerlinPen and perlinGlyph -/

/-- PerlinPen.\_lineTo, as a function of the stored last point, the target
point and the factory state: sample the factory at the midpoint of the two
points (note the call order calcMidPoint(pt, lastPt) and
calcAngle(pt, lastPt) of the source) and emit the midpoint displaced along
(cos(angle + 90), sin(angle + 90)) scaled by intensity * noise. -/
noncomputable def perlinLineTo (intensity : ℝ) (fs : PerlinNoiseFactory)
    (lastPt pt : Point) : Point × PerlinNoiseFactory :=
  let midPt := calcMidPoint pt lastPt
  let angle := calcAngle pt lastPt
  let r := pnfCall fs midPt.1 midPt.2
  ((midPt.1 + Real.cos (angle + 90) * intensity * r.1,
    midPt.2 + Real.sin (angle + 90) * intensity * r.1), r.2)

/-- State of a PerlinPen run: the remembered first/last points, the factory
state and the operations already forwarded to the recording pen. -/
structure PerlinPenState : Type where
  firstPt : Option Point
  lastPt : Option Point
  fs : PerlinNoiseFactory
  ops : List PenOp

/-- One pen call processed by PerlinPen.  Curves are not supported
(NotImplementedError); \_closePath replays a lineTo back to the first point
before forwarding closePath; a lineTo before any moveTo fails in Python when
the None last point reaches the arithmetic. -/
noncomputable def perlinStep (intensity : ℝ) (s : PerlinPenState) :
    Seg → Except PyErr PerlinPenState
  | Seg.moveTo p =>
      Except.ok { s with
        firstPt := some p
        lastPt := some p
        ops := s.ops ++ [PenOp.moveTo p] }
  | Seg.lineTo p =>
      match s.lastPt with
      | none => Except.error PyErr.typeError
      | some lp =>
          let r := perlinLineTo intensity s.fs lp p
          Except.ok { s with
            lastPt := some p
            fs := r.2
            ops := s.ops ++ [PenOp.lineTo r.1] }
  | Seg.curveTo _ _ _ => Except.error PyErr.notImplemented
  | Seg.close =>
      match s.firstPt with
      | none => Except.error PyErr.typeError
      | some fp =>
          match s.lastPt with
          | none => Except.error PyErr.typeError
          | some lp =>
              let r := perlinLineTo intensity s.fs lp fp
              Except.ok { s with
                lastPt := none
                fs := r.2
                ops := s.ops ++ [PenOp.lineTo r.1, PenOp.closePath] }
  | Seg.Eend =>
      Except.ok { s with
        lastPt := none
        ops := s.ops ++ [PenOp.endPath] }

/-- Sequential PerlinPen processing of a pen-call stream. -/
noncomputable def perlinAux (intensity : ℝ) :
    PerlinPenState → List Seg → Except PyErr PerlinPenState
  | s, [] => Except.ok s
  | s, seg :: rest =>
      match perlinStep intensity s seg with
      | Except.error e => Except.error e
      | Except.ok s2 => perlinAux intensity s2 rest

/-- Mapping recorded pen operations back to segments (RecordingPen.replay
into the glyph pen). -/
def segOfOp : PenOp → Seg
  | PenOp.moveTo p => Seg.moveTo p
  | PenOp.lineTo p => Seg.lineTo p
  | PenOp.closePath => Seg.close
  | PenOp.endPath => Seg.Eend

/-- Grouping a recorded operation stream into contours: a contour ends at
each closePath/endPath. -/
def glyphOfOpsAux : List Seg → List PenOp → List (List Seg)
  | cur, [] => if cur.isEmpty then [] else [cur]
  | cur, PenOp.closePath :: rest => (cur ++ [Seg.close]) :: glyphOfOpsAux [] rest
  | cur, PenOp.endPath :: rest => (cur ++ [Seg.Eend]) :: glyphOfOpsAux [] rest
  | cur, op :: rest => glyphOfOpsAux (cur ++ [segOfOp op]) rest

/-- Rebuild the glyph contours from the recorded operations. -/
def glyphOfOps (ops : List PenOp) : List (List Seg) :=
  glyphOfOpsAux [] ops

/-- perlinGlyph from the source: a glyph is its list of contours (each the
pen-call stream it draws).  A glyph with zero contours is returned as is,
before any pen or factory is even constructed; otherwise the glyph is drawn
through a PerlinPen into a recording pen, cleared, and rebuilt from the
recording. -/
noncomputable def perlinGlyph (aGlyph : List (List Seg)) (intensity : ℝ)
    (factory : PerlinNoiseFactory) :
    Except PyErr (List (List Seg) × PerlinNoiseFactory) :=
  if aGlyph.length = 0 then Except.ok (aGlyph, factory)
  else
    match perlinAux intensity
        { firstPt := none, lastPt := none, fs := factory, ops := [] }
        aGlyph.flatten with
    | Except.error e => Except.error e
    | Except.ok st => Except.ok (glyphOfOps st.ops, st.fs)

/-! ## Definitions written from the spec's words (for refinement comparison) -/

/-- Modelled from the claim wording (spec section 4.3): the displaced point is
`next + intensity * noise * (cos(angle + 90), sin(angle + 90))` where
`angle = atan2(next.y - prev.y, next.x - prev.x)`.  This is the spec-side
formula that claim C3 asserts the code computes; it is compared against
perlinLineTo. -/
noncomputable def specNoiseDisplace (prev next : Point) (intensity noise : ℝ) : Point :=
  (next.1 + intensity * noise * Real.cos (atan2 (next.2 - prev.2) (next.1 - prev.1) + 90),
   next.2 + intensity * noise * Real.sin (atan2 (next.2 - prev.2) (next.1 - prev.1) + 90))

/-! ## Concrete fixtures used by witnesses and counterexamples -/

/-- The factory built by drawContour: dimension 2, octaves 4,
tile (1000/600, 1000/600), with a concrete supply stream. -/
noncomputable def pnfFixture : PerlinNoiseFactory :=
  { octaves := 4
    tileX := 1000 / 600
    tileY := 1000 / 600
    unbias := false
    gradient := fun _ => none
    supply := fun _ => (1, 0)
    counter := 0 }

/-- A factory state whose gradient cache already holds an entry at (9, 9). -/
noncomputable def pnfPreloaded : PerlinNoiseFactory :=
  { octaves := 1
    tileX := 0
    tileY := 0
    unbias := false
    gradient := fun q => if q = ((9 : ℤ), (9 : ℤ)) then some (0, 1) else none
    supply := fun _ => (1, 0)
    counter := 0 }

/-- A flattener state sitting at the point (2, 3). -/
noncomputable def flattenerAt23 : StrokeFlattener :=
  { currentPt := some (2, 3)
    firstPt := some (2, 3)
    index := 0
    segmentRefrenceMap := fun _ => none
    ops := [] }

/-- A flattener state sitting at the origin. -/
noncomputable def flattenerAt00 : StrokeFlattener :=
  { currentPt := some (0, 0)
    firstPt := some (0, 0)
    index := 0
    segmentRefrenceMap := fun _ => none
    ops := [PenOp.moveTo (0, 0)] }

/-- A step-count map holding exactly the entry 1 ↦ 2. -/
def mapOneTwo : ℕ → Option ℕ := fun j => if j = 1 then some 2 else none

/-! ## Theorems: the weave loop (claims C2 and C4) -/

theorem weaveLoop_eq_zip {α : Type} :
    ∀ (psA : List α) (psB : List α) (i : ℕ), psB.length = i + psA.length →
      weaveLoop psB 0 i psA = ((psB.drop i).zip psA).flatMap (fun q => [q.1, q.2]) := by
  intro psA
  induction psA with
  | nil =>
      intro psB i h
      simp [weaveLoop]
  | cons p rest ih =>
      intro psB i h
      have hlen : psB.length = i + (rest.length + 1) := by simpa using h
      have hi : i < psB.length := by omega
      have hget : psB.get? (i + 0) = some psB[i] := by
        rw [Nat.add_zero, List.get?_eq_getElem?, List.getElem?_eq_getElem hi]
      rw [List.drop_eq_getElem_cons hi]
      simp only [weaveLoop, hget, List.zip_cons_cons, List.flatMap_cons]
      rw [ih psB (i + 1) (by omega)]

theorem weave_cons_false {α : Type} (p0 : α) (rest psB : List α) (off : ℕ) :
    weave (p0 :: rest) psB off false = some (p0 :: weaveLoop psB off 0 (p0 :: rest)) :=
  rfl

theorem flatMap_pair_length {α : Type} :
    ∀ l : List (α × α), (l.flatMap (fun q => [q.1, q.2])).length = 2 * l.length := by
  intro l
  induction l with
  | nil => rfl
  | cons a l ih =>
      simp only [List.flatMap_cons, List.length_append, List.length_cons, List.length_nil, ih]
      omega

/-- C2 (corrected), counterexample to the original claim: with
psA = [0], psB = [1], offset 0 and no side swap, the weave outputs
[0, 1, 0] — three points beginning with psA's first point — whereas the
claim predicts exactly 2N = 2 points [1, 0] beginning with psB's point. -/
theorem weave_offset0_claim_counterexample :
    weave [(0 : ℕ)] [1] 0 false = some [0, 1, 0] ∧
      weave [(0 : ℕ)] [1] 0 false ≠ some [1, 0] := by
  constructor <;> decide

/-- C2 (amended): for a non-empty psA and psB of equal length, offset 0 and
no side swap, the weave outputs psA's first point followed by the
alternation psB[0], psA[0], psB[1], psA[1], ..., for a total of exactly
2N + 1 points. -/
theorem weave_offset0_equal_lengths {α : Type} (p0 : α) (rest psB : List α)
    (h : psB.length = (p0 :: rest).length) :
    weave (p0 :: rest) psB 0 false =
      some (p0 :: (psB.zip (p0 :: rest)).flatMap (fun q => [q.1, q.2])) ∧
      (p0 :: (psB.zip (p0 :: rest)).flatMap (fun q => [q.1, q.2])).length =
        2 * psB.length + 1 := by
  constructor
  · rw [weave_cons_false, weaveLoop_eq_zip (p0 :: rest) psB 0 (by simpa using h)]
    rfl
  · simp only [List.length_cons, flatMap_pair_length]
    rw [List.length_zip, h, min_self]

/-- C2 witness: the amended statement evaluated at psA = [10, 20],
psB = [1, 2]. -/
theorem weave_offset0_equal_lengths_witness :
    weave [10, 20] [(1 : ℕ), 2] 0 false = some [10, 1, 10, 2, 20] ∧
      ([10, 1, 10, 2, 20] : List ℕ).length = 2 * 2 + 1 := by
  have h := weave_offset0_equal_lengths (10 : ℕ) [20] [1, 2] (by decide)
  exact ⟨by rw [h.1]; rfl, by decide⟩

theorem weaveLoop_out_of_range {α : Type} (psB : List α) (off : ℕ) :
    ∀ (l : List α) (i : ℕ), psB.length ≤ i + off → weaveLoop psB off i l = [] := by
  intro l
  induction l with
  | nil => intro i _; rfl
  | cons p rest ih =>
      intro i h
      have hnone : psB.get? (i + off) = none := by
        rw [List.get?_eq_getElem?]
        exact List.getElem?_eq_none h
      simp only [weaveLoop, hnone, List.nil_append]
      exact ih (i + 1) (by omega)

/-- C4 (corrected), counterexample to the original claim: with the non-empty
pair psA = [0], psB = [5] and offset 2 > len(psB), the weave output is not
empty — it still contains the initial psA[0]. -/
theorem weave_offset_too_large_counterexample :
    weave [(0 : ℕ)] [5] 2 false ≠ some [] := by
  decide

/-- C4 (amended): for a non-empty psA, when the offset exceeds the length of
psB every per-iteration lookup psB[i + offset] is out of range and
contributes nothing, so the weave output is exactly the single initial point
psA[0]. -/
theorem weave_offset_too_large {α : Type} (p0 : α) (rest psB : List α) (off : ℕ)
    (h : psB.length < off) :
    weave (p0 :: rest) psB off false = some [p0] := by
  rw [weave_cons_false, weaveLoop_out_of_range psB off (p0 :: rest) 0 (by omega)]

/-- C4 witness: the amended statement evaluated at psA = [3], psB = [7],
offset 2. -/
theorem weave_offset_too_large_witness :
    weave [(3 : ℕ)] [7] 2 false = some [3] :=
  weave_offset_too_large (3 : ℕ) [] [7] 2 (by decide)

/-! ## Theorems: StrokeFlattener (claims C1, C5, C6, C8) -/

/-- C8 (confirmed): with filterRepeatedPoints enabled, a lineTo whose target
equals the current point returns before anything happens — the flattener
state (segment index, segmentRefrenceMap, forwarded operations, current
point) is returned exactly unchanged, under either policy. -/
theorem flatLineTo_duplicate_dropped (pol : Policy) (s : StrokeFlattener) (pt : Point)
    (h : s.currentPt = some pt) : flatLineTo pol true s pt = Except.ok s := by
  unfold flatLineTo
  rw [if_pos ⟨rfl, h⟩]

/-- C8 witness: the duplicate-point drop evaluated at a flattener sitting at
(2, 3) receiving lineTo (2, 3) under the distance policy. -/
theorem flatLineTo_duplicate_dropped_witness :
    flatLineTo (Policy.dist 5) true flattenerAt23 (2, 3) = Except.ok flattenerAt23 :=
  flatLineTo_duplicate_dropped (Policy.dist 5) flattenerAt23 (2, 3) rfl

theorem pyDistance_unit : pyDistance ((0 : ℝ), (0 : ℝ)) ((1 : ℝ), (0 : ℝ)) = 1 := by
  have : ((0 : ℝ) - 1) ^ 2 + ((0 : ℝ) - 0) ^ 2 = 1 := by norm_num
  rw [pyDistance, this, Real.sqrt_one]

theorem pyRound_fifth : pyRound ((1 : ℝ) / 5) = 0 := by
  have hf : ⌊(1 : ℝ) / 5⌋ = 0 := by
    rw [Int.floor_eq_zero_iff, Set.mem_Ico]
    norm_num
  rw [pyRound, hf]
  norm_num

/-- C1 (code bug): flattening MoveTo (0,0), LineTo (1,0) under the Distance
policy with approximateSegmentLength 5 clamps the step count to the single
point (round(1/5) = 0 < 1), emits the end point, and leaves the
segmentRefrenceMap empty — no steps = 1 entry is recorded for the sampled
segment, contrary to the claim.  The missing entry is what later makes the
paired Reference flatten raise KeyError, the KNOWN BUGS item of main.py. -/
theorem flatten_clamped_line_no_map_entry :
    (flatten (Policy.dist 5) true [Seg.moveTo (0, 0), Seg.lineTo (1, 0)]).map
      (fun st => (st.segmentRefrenceMap 1, st.ops)) =
    Except.ok (none, [PenOp.moveTo (0, 0), PenOp.lineTo (1, 0)]) := by
  have hguard : ¬ (true = true ∧
      (some ((0 : ℝ), (0 : ℝ)) : Option Point) = some ((1 : ℝ), (0 : ℝ))) := by
    simp [Prod.ext_iff]
  simp only [flatten, flattenAux, segStep, initFlattener, flatLineTo, List.nil_append,
    hguard, if_false, pyDistance_unit, pyRound_fifth]
  norm_num [Prod.ext_iff]
  rfl

theorem flatLineTo_refMap_eq (m : ℕ → Option ℕ) (fd : Bool) (s : StrokeFlattener)
    (pt : Point) :
    flatLineTo (Policy.refMap m) fd s pt =
      if fd = true ∧ s.currentPt = some pt then Except.ok s
      else
        match m (s.index + 1) with
        | none => Except.error PyErr.keyError
        | some steps =>
            if steps = 0 then Except.error PyErr.zeroDivision
            else
              match s.currentPt with
              | none => Except.error PyErr.typeError
              | some c =>
                  Except.ok { s with
                    index := s.index + 1
                    currentPt := some pt
                    ops := s.ops ++ (List.range steps).map (fun (k : ℕ) =>
                      PenOp.lineTo (interpolatePoint c pt ((k + 1 : ℝ) / (steps : ℝ)))) } :=
  rfl

theorem flatCurveToOne_refMap_eq (m : ℕ → Option ℕ) (fd : Bool) (s : StrokeFlattener)
    (p1 p2 p3 : Point) :
    flatCurveToOne (Policy.refMap m) fd s p1 p2 p3 =
      if s.currentPt = some p1 ∧ p2 = p3 then flatLineTo (Policy.refMap m) fd s p3
      else
        match m (s.index + 1) with
        | none => Except.error PyErr.keyError
        | some steps =>
            if steps = 0 then Except.error PyErr.zeroDivision
            else
              match s.currentPt with
              | none => Except.error PyErr.typeError
              | some c =>
                  Except.ok { s with
                    index := s.index + 1
                    currentPt := some p3
                    ops := s.ops ++ (List.range steps).map (fun (k : ℕ) =>
                      PenOp.lineTo (getCubicPoint ((k + 1 : ℝ) / (steps : ℝ)) c p1 p2 p3)) } :=
  rfl

theorem flatLineTo_refMap_map_eq {m : ℕ → Option ℕ} {fd : Bool} {s s2 : StrokeFlattener}
    {pt : Point} (h : flatLineTo (Policy.refMap m) fd s pt = Except.ok s2) :
    s2.segmentRefrenceMap = s.segmentRefrenceMap := by
  rw [flatLineTo_refMap_eq] at h
  split at h
  · injection h with h2; subst h2; rfl
  · split at h
    · exact Except.noConfusion h
    · split at h
      · exact Except.noConfusion h
      · split at h
        · exact Except.noConfusion h
        · injection h with h2; subst h2; rfl

theorem flatCurveToOne_refMap_map_eq {m : ℕ → Option ℕ} {fd : Bool} {s s2 : StrokeFlattener}
    {p1 p2 p3 : Point}
    (h : flatCurveToOne (Policy.refMap m) fd s p1 p2 p3 = Except.ok s2) :
    s2.segmentRefrenceMap = s.segmentRefrenceMap := by
  rw [flatCurveToOne_refMap_eq] at h
  split at h
  · exact flatLineTo_refMap_map_eq h
  · split at h
    · exact Except.noConfusion h
    · split at h
      · exact Except.noConfusion h
      · split at h
        · exact Except.noConfusion h
        · injection h with h2; subst h2; rfl

theorem segStep_refMap_map_eq {m : ℕ → Option ℕ} {fd : Bool} {s s2 : StrokeFlattener}
    {seg : Seg} (h : segStep (Policy.refMap m) fd s seg = Except.ok s2) :
    s2.segmentRefrenceMap = s.segmentRefrenceMap := by
  cases seg with
  | moveTo p =>
      simp only [segStep] at h
      injection h with h2; subst h2; rfl
  | lineTo p => exact flatLineTo_refMap_map_eq h
  | curveTo p1 p2 p3 => exact flatCurveToOne_refMap_map_eq h
  | close =>
      simp only [segStep] at h
      split at h
      · rename_i fp hfp
        cases hfl : flatLineTo (Policy.refMap m) fd s fp with
        | error e => rw [hfl] at h; exact Except.noConfusion h
        | ok s3 =>
            rw [hfl] at h
            injection h with h2
            subst h2
            show s3.segmentRefrenceMap = s.segmentRefrenceMap
            exact flatLineTo_refMap_map_eq hfl
      · split at h
        · injection h with h2; subst h2; rfl
        · exact Except.noConfusion h
  | Eend =>
      simp only [segStep] at h
      injection h with h2; subst h2; rfl

theorem flattenAux_refMap_map_eq {m : ℕ → Option ℕ} {fd : Bool} :
    ∀ (segs : List Seg) (s st : StrokeFlattener),
      flattenAux (Policy.refMap m) fd s segs = Except.ok st →
      st.segmentRefrenceMap = s.segmentRefrenceMap := by
  intro segs
  induction segs with
  | nil =>
      intro s st h
      injection h with h2; subst h2; rfl
  | cons seg rest ih =>
      intro s st h
      simp only [flattenAux] at h
      cases hstep : segStep (Policy.refMap m) fd s seg with
      | error e => rw [hstep] at h; exact Except.noConfusion h
      | ok s2 =>
          rw [hstep] at h
          exact (ih s2 st h).trans (segStep_refMap_map_eq hstep)

/-- C6 (confirmed): in Reference mode, (i) a lineTo whose (incremented)
segment index has no entry in the supplied step-count map fails with the
KeyError that the spec calls AlignmentError (the sequential processing of
flattenAux propagates it to the caller unrecovered), (ii) likewise for a
genuine curveTo, and (iii) a Reference-mode flatten that returns at all
returns with its segmentRefrenceMap still completely empty — Reference mode
never writes the step-count map. -/
theorem refMode_alignment_error_and_no_map_write :
    (∀ (m : ℕ → Option ℕ) (fd : Bool) (s : StrokeFlattener) (pt c : Point),
        s.currentPt = some c → pt ≠ c → m (s.index + 1) = none →
        flatLineTo (Policy.refMap m) fd s pt = Except.error PyErr.keyError) ∧
    (∀ (m : ℕ → Option ℕ) (fd : Bool) (s : StrokeFlattener) (p1 p2 p3 c : Point),
        s.currentPt = some c → ¬(c = p1 ∧ p2 = p3) → m (s.index + 1) = none →
        flatCurveToOne (Policy.refMap m) fd s p1 p2 p3 = Except.error PyErr.keyError) ∧
    (∀ (m : ℕ → Option ℕ) (fd : Bool) (segs : List Seg) (st : StrokeFlattener),
        flatten (Policy.refMap m) fd segs = Except.ok st →
        st.segmentRefrenceMap = fun _ => none) := by
  refine ⟨?_, ?_, ?_⟩
  · intro m fd s pt c hc hpt hm
    rw [flatLineTo_refMap_eq, if_neg, hm]
    rintro ⟨-, hcp⟩
    rw [hc] at hcp
    exact hpt (Option.some.inj hcp).symm
  · intro m fd s p1 p2 p3 c hc hfc hm
    rw [flatCurveToOne_refMap_eq, if_neg, hm]
    rintro ⟨h1, h2⟩
    rw [hc] at h1
    exact hfc ⟨Option.some.inj h1, h2⟩
  · intro m fd segs st h
    exact flattenAux_refMap_map_eq segs initFlattener st h

/-- C6 witness: a missing entry for segment index 1 makes both the line and
the genuine-curve reference steps fail with KeyError at a concrete state,
and a concrete reference-mode flatten returns with an empty
segmentRefrenceMap. -/
theorem refMode_alignment_error_witness :
    flatLineTo (Policy.refMap (fun _ => none)) true flattenerAt00 (1, 0) =
      Except.error PyErr.keyError ∧
    flatCurveToOne (Policy.refMap (fun _ => none)) true flattenerAt00 (1, 1) (2, 2) (3, 3) =
      Except.error PyErr.keyError ∧
    flattenerAt00.segmentRefrenceMap = fun _ => none := by
  have h3 : flatten (Policy.refMap (fun _ => none)) true [Seg.moveTo (0, 0)] =
      Except.ok flattenerAt00 := rfl
  refine ⟨?_, ?_, ?_⟩
  · exact refMode_alignment_error_and_no_map_write.1 (fun _ => none) true flattenerAt00
      (1, 0) (0, 0) rfl (by norm_num [Prod.ext_iff]) rfl
  · exact refMode_alignment_error_and_no_map_write.2.1 (fun _ => none) true flattenerAt00
      (1, 1) (2, 2) (3, 3) (0, 0) rfl (by norm_num [Prod.ext_iff]) rfl
  · exact refMode_alignment_error_and_no_map_write.2.2 (fun _ => none) true
      [Seg.moveTo (0, 0)] flattenerAt00 h3

theorem countLineTo_append (l1 l2 : List PenOp) :
    countLineTo (l1 ++ l2) = countLineTo l1 + countLineTo l2 :=
  List.countP_append _ _ _

theorem countLineTo_range_map (f : ℕ → Point) (n : ℕ) :
    countLineTo ((List.range n).map (fun k => PenOp.lineTo (f k))) = n := by
  unfold countLineTo
  rw [List.countP_eq_length.2 (by simp)]
  simp

theorem flatLineTo_refMap_ok {m : ℕ → Option ℕ} {fd : Bool} {s : StrokeFlattener}
    {pt c : Point} {v : ℕ} (hc : s.currentPt = some c) (hpt : pt ≠ c)
    (hm : m (s.index + 1) = some v) (hv : v ≠ 0) :
    flatLineTo (Policy.refMap m) fd s pt = Except.ok { s with
      index := s.index + 1
      currentPt := some pt
      ops := s.ops ++ (List.range v).map (fun (k : ℕ) =>
        PenOp.lineTo (interpolatePoint c pt ((k + 1 : ℝ) / (v : ℝ)))) } := by
  rw [flatLineTo_refMap_eq, if_neg, hm]
  · show (if v = 0 then Except.error PyErr.zeroDivision
      else
        match s.currentPt with
        | none => Except.error PyErr.typeError
        | some c2 =>
            Except.ok { s with
              index := s.index + 1
              currentPt := some pt
              ops := s.ops ++ (List.range v).map (fun (k : ℕ) =>
                PenOp.lineTo (interpolatePoint c2 pt ((k + 1 : ℝ) / (v : ℝ)))) }) = _
    rw [if_neg hv, hc]
  · rintro ⟨-, hcp⟩
    rw [hc] at hcp
    exact hpt (Option.some.inj hcp).symm

theorem flatCurveToOne_refMap_ok {m : ℕ → Option ℕ} {fd : Bool} {s : StrokeFlattener}
    {p1 p2 p3 c : Point} {v : ℕ} (hc : s.currentPt = some c)
    (hfc : ¬(s.currentPt = some p1 ∧ p2 = p3))
    (hm : m (s.index + 1) = some v) (hv : v ≠ 0) :
    flatCurveToOne (Policy.refMap m) fd s p1 p2 p3 = Except.ok { s with
      index := s.index + 1
      currentPt := some p3
      ops := s.ops ++ (List.range v).map (fun (k : ℕ) =>
        PenOp.lineTo (getCubicPoint ((k + 1 : ℝ) / (v : ℝ)) c p1 p2 p3)) } := by
  rw [flatCurveToOne_refMap_eq, if_neg hfc, hm]
  show (if v = 0 then Except.error PyErr.zeroDivision
    else
      match s.currentPt with
      | none => Except.error PyErr.typeError
      | some c2 =>
          Except.ok { s with
            index := s.index + 1
            currentPt := some p3
            ops := s.ops ++ (List.range v).map (fun (k : ℕ) =>
              PenOp.lineTo (getCubicPoint ((k + 1 : ℝ) / (v : ℝ)) c2 p1 p2 p3)) }) = _
  rw [if_neg hv, hc]

theorem refMap_count_continue {m : ℕ → Option ℕ} {fd : Bool} (rest : List Seg)
    (ih : ∀ (c : Point) (s : StrokeFlattener), s.currentPt = some c → noDrops c rest →
      (∀ j, s.index < j → j ≤ s.index + rest.length → (m j).isSome) →
      (∀ j v, m j = some v → 0 < v) →
      ∃ st, flattenAux (Policy.refMap m) fd s rest = Except.ok st ∧
        countLineTo st.ops = countLineTo s.ops + stepSum m s.index rest.length)
    (s : StrokeFlattener) (seg : Seg) (q : Point) (v : ℕ) (g : ℕ → Point)
    (hstep : segStep (Policy.refMap m) fd s seg = Except.ok { s with
      index := s.index + 1
      currentPt := some q
      ops := s.ops ++ (List.range v).map (fun k => PenOp.lineTo (g k)) })
    (hrest : noDrops q rest)
    (hdom : ∀ j, s.index < j → j ≤ s.index + (rest.length + 1) → (m j).isSome)
    (hpos : ∀ j v2, m j = some v2 → 0 < v2)
    (hv : m (s.index + 1) = some v) :
    ∃ st, flattenAux (Policy.refMap m) fd s (seg :: rest) = Except.ok st ∧
      countLineTo st.ops = countLineTo s.ops + stepSum m s.index (rest.length + 1) := by
  obtain ⟨st, heq, hcount⟩ := ih q
    { s with
      index := s.index + 1
      currentPt := some q
      ops := s.ops ++ (List.range v).map (fun k => PenOp.lineTo (g k)) }
    rfl hrest
    (by
      intro j h1 h2
      have h1a : s.index + 1 < j := h1
      have h2a : j ≤ s.index + 1 + rest.length := h2
      exact hdom j (by omega) (by omega))
    hpos
  refine ⟨st, ?_, ?_⟩
  · simp only [flattenAux]
    rw [hstep]
    exact heq
  · have hcount2 : countLineTo st.ops =
        countLineTo (s.ops ++ (List.range v).map (fun k => PenOp.lineTo (g k))) +
          stepSum m (s.index + 1) rest.length := hcount
    have hss : stepSum m s.index (rest.length + 1) =
        v + stepSum m (s.index + 1) rest.length := by
      have hrec : stepSum m s.index (rest.length + 1) =
          (m (s.index + 1)).getD 0 + stepSum m (s.index + 1) rest.length := rfl
      rw [hrec, hv, Option.getD_some]
    rw [hcount2, countLineTo_append, countLineTo_range_map, hss]
    omega

theorem flattenAux_refMap_count {m : ℕ → Option ℕ} {fd : Bool} :
    ∀ (body : List Seg) (c : Point) (s : StrokeFlattener),
      s.currentPt = some c →
      noDrops c body →
      (∀ j, s.index < j → j ≤ s.index + body.length → (m j).isSome) →
      (∀ j v, m j = some v → 0 < v) →
      ∃ st, flattenAux (Policy.refMap m) fd s body = Except.ok st ∧
        countLineTo st.ops = countLineTo s.ops + stepSum m s.index body.length := by
  intro body
  induction body with
  | nil =>
      intro c s hc hnd hdom hpos
      exact ⟨s, rfl, by simp [stepSum]⟩
  | cons seg rest ih =>
      intro c s hc hnd hdom hpos
      have hdom2 : ∀ j, s.index < j → j ≤ s.index + (rest.length + 1) → (m j).isSome := by
        intro j h1 h2
        exact hdom j h1 (by simpa using h2)
      have hgoal : (seg :: rest).length = rest.length + 1 := rfl
      rw [show stepSum m s.index (seg :: rest).length =
        stepSum m s.index (rest.length + 1) from rfl]
      cases seg with
      | moveTo p => exact hnd.elim
      | close => exact hnd.elim
      | Eend => exact hnd.elim
      | lineTo p =>
          obtain ⟨hp, hrest⟩ := hnd
          have hsome : (m (s.index + 1)).isSome := hdom2 (s.index + 1) (by omega) (by omega)
          obtain ⟨v, hv⟩ : ∃ v, m (s.index + 1) = some v := by
            cases hmv : m (s.index + 1) with
            | none => rw [hmv] at hsome; simp at hsome
            | some v => exact ⟨v, rfl⟩
          have hv0 : v ≠ 0 := (hpos _ _ hv).ne'
          exact refMap_count_continue rest ih s (Seg.lineTo p) p v _
            (flatLineTo_refMap_ok hc hp hv hv0) hrest hdom2 hpos hv
      | curveTo p1 p2 p3 =>
          obtain ⟨hp, hrest⟩ := hnd
          have hsome : (m (s.index + 1)).isSome := hdom2 (s.index + 1) (by omega) (by omega)
          obtain ⟨v, hv⟩ : ∃ v, m (s.index + 1) = some v := by
            cases hmv : m (s.index + 1) with
            | none => rw [hmv] at hsome; simp at hsome
            | some v => exact ⟨v, rfl⟩
          have hv0 : v ≠ 0 := (hpos _ _ hv).ne'
          by_cases hfc : s.currentPt = some p1 ∧ p2 = p3
          · refine refMap_count_continue rest ih s (Seg.curveTo p1 p2 p3) p3 v
              (fun k => interpolatePoint c p3 ((k + 1 : ℝ) / (v : ℝ)))
              ?_ hrest hdom2 hpos hv
            show flatCurveToOne (Policy.refMap m) fd s p1 p2 p3 = _
            rw [flatCurveToOne_refMap_eq, if_pos hfc]
            exact flatLineTo_refMap_ok hc hp hv hv0
          · exact refMap_count_continue rest ih s (Seg.curveTo p1 p2 p3) p3 v _
              (flatCurveToOne_refMap_ok hc hfc hv hv0) hrest hdom2 hpos hv

theorem flattenAux_append (pol : Policy) (fd : Bool) :
    ∀ (l1 l2 : List Seg) (s : StrokeFlattener),
      flattenAux pol fd s (l1 ++ l2) =
        match flattenAux pol fd s l1 with
        | Except.error e => Except.error e
        | Except.ok s2 => flattenAux pol fd s2 l2 := by
  intro l1
  induction l1 with
  | nil => intro l2 s; rfl
  | cons seg rest ih =>
      intro l2 s
      simp only [List.cons_append, flattenAux]
      cases segStep pol fd s seg with
      | error e => rfl
      | ok s2 => exact ih l2 s2

theorem stepSum_eq_range (m : ℕ → Option ℕ) :
    ∀ (n k : ℕ), stepSum m k n = ∑ i in Finset.range n, (m (k + 1 + i)).getD 0 := by
  intro n
  induction n with
  | zero => intro k; simp [stepSum]
  | succ n ih =>
      intro k
      have hrec : stepSum m k (n + 1) = (m (k + 1)).getD 0 + stepSum m (k + 1) n := rfl
      rw [hrec, ih (k + 1), Finset.sum_range_succ' (fun i => (m (k + 1 + i)).getD 0) n]
      have hcong : ∀ i ∈ Finset.range n,
          (m (k + 1 + (i + 1))).getD 0 = (m (k + 1 + 1 + i)).getD 0 := by
        intro i _
        rw [show k + 1 + (i + 1) = k + 1 + 1 + i from by omega]
      rw [Finset.sum_congr rfl hcong]
      simp only [Nat.add_zero]
      omega

theorem stepSum_eq_Icc (m : ℕ → Option ℕ) (n : ℕ) :
    stepSum m 0 n = ∑ i in Finset.Icc 1 n, (m i).getD 0 := by
  rw [stepSum_eq_range m n 0, ← Nat.Ico_succ_right 1 n,
    Finset.sum_Ico_eq_sum_range (fun i => (m i).getD 0) 1 (n + 1)]
  simp

/-- C5 (confirmed): flattening a contour MoveTo p0 followed by S non-degenerate
line/curve segments (noDrops: each segment's end point differs from its
predecessor's, so the doubles filter drops nothing) and an end-path, under a
Reference policy whose step-count map has exactly the entries 1..S with
positive values, succeeds and forwards exactly sum(map.values()) sampled
(lineTo) points to the receiving pen. -/
theorem flatten_reference_reproduces_sum (m : ℕ → Option ℕ) (fd : Bool) (p0 : Point)
    (body : List Seg)
    (hnd : noDrops p0 body)
    (hdom : ∀ j, (m j).isSome ↔ (1 ≤ j ∧ j ≤ body.length))
    (hpos : ∀ j v, m j = some v → 0 < v) :
    (flatten (Policy.refMap m) fd (Seg.moveTo p0 :: (body ++ [Seg.Eend]))).map
      (fun st => countLineTo st.ops) =
    Except.ok (∑ i in Finset.Icc 1 body.length, (m i).getD 0) := by
  obtain ⟨st, heq, hcount⟩ := @flattenAux_refMap_count m fd body p0
    { currentPt := some p0
      firstPt := some p0
      index := 0
      segmentRefrenceMap := fun _ => none
      ops := [PenOp.moveTo p0] }
    rfl hnd
    (by
      intro j h1 h2
      have h1a : 0 < j := h1
      have h2a : j ≤ 0 + body.length := h2
      exact (hdom j).2 ⟨by omega, by omega⟩)
    hpos
  have hflat : flatten (Policy.refMap m) fd (Seg.moveTo p0 :: (body ++ [Seg.Eend])) =
      Except.ok { st with
        ops := st.ops ++ [PenOp.endPath]
        currentPt := none } := by
    show flattenAux (Policy.refMap m) fd initFlattener
        (Seg.moveTo p0 :: (body ++ [Seg.Eend])) = _
    simp only [flattenAux, segStep, initFlattener, List.nil_append]
    rw [flattenAux_append, heq]
    rfl
  rw [hflat]
  show Except.ok (countLineTo (st.ops ++ [PenOp.endPath])) = _
  rw [countLineTo_append, hcount, stepSum_eq_Icc]
  show Except.ok (countLineTo [PenOp.moveTo p0] + _ + countLineTo [PenOp.endPath]) = _
  norm_num [countLineTo]

/-- C5 witness: the contour MoveTo (0,0), LineTo (1,0), end, flattened with the
reference map holding exactly 1 ↦ 2, emits exactly 2 sampled points. -/
theorem flatten_reference_reproduces_sum_witness :
    (flatten (Policy.refMap mapOneTwo) true
        (Seg.moveTo (0, 0) :: ([Seg.lineTo (1, 0)] ++ [Seg.Eend]))).map
      (fun st => countLineTo st.ops) = Except.ok 2 := by
  have h := flatten_reference_reproduces_sum mapOneTwo true (0, 0) [Seg.lineTo (1, 0)]
    (by
      refine ⟨?_, trivial⟩
      intro hcontra
      rw [Prod.ext_iff] at hcontra
      exact one_ne_zero hcontra.1)
    (by
      intro j
      rcases eq_or_ne j 1 with hj | hj
      · subst hj; simp [mapOneTwo]
      · simp [mapOneTwo, hj]; omega)
    (by
      intro j v hv
      rcases eq_or_ne j 1 with hj | hj
      · subst hj
        simp [mapOneTwo] at hv
        omega
      · simp [mapOneTwo, hj] at hv)
  rw [h]
  norm_num [mapOneTwo]

/-! ## Theorems: PerlinNoiseFactory (claims C7 and C9) -/

theorem cacheLE_refl (s : PerlinNoiseFactory) : cacheLE s s := fun _ _ h => h

theorem cacheLE_trans {a b c : PerlinNoiseFactory} (h1 : cacheLE a b) (h2 : cacheLE b c) :
    cacheLE a c := fun q g h => h2 q g (h1 q g h)

theorem ensureGradient_le (s : PerlinNoiseFactory) (gp : ℤ × ℤ) :
    cacheLE s (ensureGradient s gp).2 := by
  intro q g hq
  unfold ensureGradient
  split
  · exact hq
  · rename_i heq
    show (if q = gp then some (generateGradient (s.supply s.counter)) else s.gradient q) = some g
    by_cases hq2 : q = gp
    · rw [hq2] at hq
      rw [hq] at heq
      exact Option.noConfusion heq
    · rw [if_neg hq2]
      exact hq

theorem ensureGradient_post (s : PerlinNoiseFactory) (gp : ℤ × ℤ) :
    ((ensureGradient s gp).2).gradient gp = some (ensureGradient s gp).1 := by
  unfold ensureGradient
  split
  · rename_i g2 heq
    exact heq
  · show (if gp = gp then some (generateGradient (s.supply s.counter)) else s.gradient gp) = _
    rw [if_pos rfl]

theorem ensureGradient_hit {s : PerlinNoiseFactory} {gp : ℤ × ℤ} {g : ℝ × ℝ}
    (h : s.gradient gp = some g) : ensureGradient s gp = (g, s) := by
  unfold ensureGradient
  rw [h]

theorem ensureGradient_params (s : PerlinNoiseFactory) (gp : ℤ × ℤ) :
    paramsEq s (ensureGradient s gp).2 := by
  unfold ensureGradient
  split <;> exact ⟨rfl, rfl, rfl, rfl⟩

theorem ensureGradient_supply (s : PerlinNoiseFactory) (gp : ℤ × ℤ) :
    ((ensureGradient s gp).2).supply = s.supply := by
  unfold ensureGradient
  split <;> rfl

theorem paramsEq_trans {a b c : PerlinNoiseFactory} (h1 : paramsEq a b) (h2 : paramsEq b c) :
    paramsEq a c :=
  ⟨h2.1.trans h1.1, h2.2.1.trans h1.2.1, h2.2.2.1.trans h1.2.2.1, h2.2.2.2.trans h1.2.2.2⟩

theorem getPlainNoise_snd (x y : ℝ) (s : PerlinNoiseFactory) :
    (getPlainNoise x y s).2 =
      (ensureGradient (ensureGradient (ensureGradient (ensureGradient s
        (⌊x⌋, ⌊y⌋)).2 (⌊x⌋, ⌊y⌋ + 1)).2 (⌊x⌋ + 1, ⌊y⌋)).2 (⌊x⌋ + 1, ⌊y⌋ + 1)).2 :=
  rfl

theorem getPlainNoise_le (x y : ℝ) (s : PerlinNoiseFactory) :
    cacheLE s (getPlainNoise x y s).2 := by
  rw [getPlainNoise_snd]
  exact cacheLE_trans (ensureGradient_le _ _) (cacheLE_trans (ensureGradient_le _ _)
    (cacheLE_trans (ensureGradient_le _ _) (ensureGradient_le _ _)))

theorem getPlainNoise_params (x y : ℝ) (s : PerlinNoiseFactory) :
    paramsEq s (getPlainNoise x y s).2 := by
  rw [getPlainNoise_snd]
  exact paramsEq_trans (ensureGradient_params _ _) (paramsEq_trans (ensureGradient_params _ _)
    (paramsEq_trans (ensureGradient_params _ _) (ensureGradient_params _ _)))

theorem getPlainNoise_replay (x y : ℝ) (s t : PerlinNoiseFactory)
    (ht : cacheLE (getPlainNoise x y s).2 t) :
    getPlainNoise x y t = ((getPlainNoise x y s).1, t) := by
  have hc00 : t.gradient (⌊x⌋, ⌊y⌋) = some (ensureGradient s (⌊x⌋, ⌊y⌋)).1 := by
    apply ht
    rw [getPlainNoise_snd]
    apply cacheLE_trans (ensureGradient_le _ _)
      (cacheLE_trans (ensureGradient_le _ _) (ensureGradient_le _ _))
    exact ensureGradient_post s (⌊x⌋, ⌊y⌋)
  have hc01 : t.gradient (⌊x⌋, ⌊y⌋ + 1) =
      some (ensureGradient (ensureGradient s (⌊x⌋, ⌊y⌋)).2 (⌊x⌋, ⌊y⌋ + 1)).1 := by
    apply ht
    rw [getPlainNoise_snd]
    apply cacheLE_trans (ensureGradient_le _ _) (ensureGradient_le _ _)
    exact ensureGradient_post _ (⌊x⌋, ⌊y⌋ + 1)
  have hc10 : t.gradient (⌊x⌋ + 1, ⌊y⌋) =
      some (ensureGradient (ensureGradient (ensureGradient s
        (⌊x⌋, ⌊y⌋)).2 (⌊x⌋, ⌊y⌋ + 1)).2 (⌊x⌋ + 1, ⌊y⌋)).1 := by
    apply ht
    rw [getPlainNoise_snd]
    apply ensureGradient_le
    exact ensureGradient_post _ (⌊x⌋ + 1, ⌊y⌋)
  have hc11 : t.gradient (⌊x⌋ + 1, ⌊y⌋ + 1) =
      some (ensureGradient (ensureGradient (ensureGradient (ensureGradient s
        (⌊x⌋, ⌊y⌋)).2 (⌊x⌋, ⌊y⌋ + 1)).2 (⌊x⌋ + 1, ⌊y⌋)).2 (⌊x⌋ + 1, ⌊y⌋ + 1)).1 := by
    apply ht
    rw [getPlainNoise_snd]
    exact ensureGradient_post _ (⌊x⌋ + 1, ⌊y⌋ + 1)
  simp only [getPlainNoise, ensureGradient_hit hc00, ensureGradient_hit hc01,
    ensureGradient_hit hc10, ensureGradient_hit hc11]

theorem pnfOctaves_le (x y tX tY : ℝ) :
    ∀ (os : List ℕ) (acc : ℝ) (s : PerlinNoiseFactory),
      cacheLE s (pnfOctaves x y tX tY os acc s).2 := by
  intro os
  induction os with
  | nil => intro acc s; exact cacheLE_refl s
  | cons o os ih =>
      intro acc s
      exact cacheLE_trans (getPlainNoise_le _ _ s) (ih _ _)

theorem pnfOctaves_params (x y tX tY : ℝ) :
    ∀ (os : List ℕ) (acc : ℝ) (s : PerlinNoiseFactory),
      paramsEq s (pnfOctaves x y tX tY os acc s).2 := by
  intro os
  induction os with
  | nil => intro acc s; exact ⟨rfl, rfl, rfl, rfl⟩
  | cons o os ih =>
      intro acc s
      exact paramsEq_trans (getPlainNoise_params _ _ s) (ih _ _)

theorem pnfOctaves_replay (x y tX tY : ℝ) :
    ∀ (os : List ℕ) (acc : ℝ) (s t : PerlinNoiseFactory),
      cacheLE (pnfOctaves x y tX tY os acc s).2 t →
      pnfOctaves x y tX tY os acc t = ((pnfOctaves x y tX tY os acc s).1, t) := by
  intro os
  induction os with
  | nil => intro acc s t ht; rfl
  | cons o os ih =>
      intro acc s t ht
      have ht2 : cacheLE (getPlainNoise
          (if tX = 0 then x * 2 ^ o else pyMod (x * 2 ^ o) (tX * 2 ^ o))
          (if tY = 0 then y * 2 ^ o else pyMod (y * 2 ^ o) (tY * 2 ^ o)) s).2 t := by
        refine cacheLE_trans ?_ ht
        exact pnfOctaves_le x y tX tY os _ _
      have hrep := getPlainNoise_replay
        (if tX = 0 then x * 2 ^ o else pyMod (x * 2 ^ o) (tX * 2 ^ o))
        (if tY = 0 then y * 2 ^ o else pyMod (y * 2 ^ o) (tY * 2 ^ o)) s t ht2
      simp only [pnfOctaves, hrep]
      exact ih _ _ t ht

/-- C7 (confirmed): sampling a PerlinNoiseFactory instance is deterministic
within the instance.  After one call of the factory at (x, y), calling it
again at the same coordinates returns exactly the same value and leaves the
state untouched: the first call cached every lattice gradient it lazily
generated, and the second call only reads that cache (gradients are never
regenerated or overwritten), so the octave sum, normalisation and unbias
post-processing reproduce the identical result. -/
theorem pnfCall_deterministic (s : PerlinNoiseFactory) (x y : ℝ) :
    pnfCall ((pnfCall s x y).2) x y = pnfCall s x y := by
  have hsnd : (pnfCall s x y).2 =
      (pnfOctaves x y s.tileX s.tileY (List.range s.octaves) 0 s).2 := rfl
  have hparams := pnfOctaves_params x y s.tileX s.tileY (List.range s.octaves) 0 s
  have ho : (pnfCall s x y).2.octaves = s.octaves := by rw [hsnd]; exact hparams.1
  have htx : (pnfCall s x y).2.tileX = s.tileX := by rw [hsnd]; exact hparams.2.1
  have hty : (pnfCall s x y).2.tileY = s.tileY := by rw [hsnd]; exact hparams.2.2.1
  have hu : (pnfCall s x y).2.unbias = s.unbias := by rw [hsnd]; exact hparams.2.2.2
  have hrep := pnfOctaves_replay x y s.tileX s.tileY (List.range s.octaves) 0 s
    (pnfCall s x y).2 (by rw [hsnd]; exact cacheLE_refl _)
  conv_lhs => rw [pnfCall]
  rw [htx, hty, ho, hu, hrep]
  rfl

theorem generateGradient_unit (raw : ℝ × ℝ) (h : raw ≠ (0, 0)) :
    (generateGradient raw).1 ^ 2 + (generateGradient raw).2 ^ 2 = 1 := by
  obtain ⟨a, b⟩ := raw
  have hs : a ^ 2 + b ^ 2 ≠ 0 := by
    intro hzero
    apply h
    have ha : a = 0 := by nlinarith [sq_nonneg a, sq_nonneg b]
    have hb : b = 0 := by nlinarith [sq_nonneg a, sq_nonneg b]
    rw [ha, hb]
  have hpos : 0 < a ^ 2 + b ^ 2 :=
    lt_of_le_of_ne (by positivity) (Ne.symm hs)
  have hsq : Real.sqrt (a ^ 2 + b ^ 2) ^ 2 = a ^ 2 + b ^ 2 := Real.sq_sqrt hpos.le
  show (a * (Real.sqrt (a ^ 2 + b ^ 2))⁻¹) ^ 2 + (b * (Real.sqrt (a ^ 2 + b ^ 2))⁻¹) ^ 2 = 1
  rw [mul_pow, mul_pow, ← add_mul, inv_pow, hsq, mul_inv_cancel₀ hs]

theorem ensureGradient_unit_inv {s : PerlinNoiseFactory} (gp : ℤ × ℤ)
    (hinv : ∀ q g, s.gradient q = some g → g.1 ^ 2 + g.2 ^ 2 = 1)
    (hsup : ∀ n, s.supply n ≠ (0, 0)) :
    ∀ q g, ((ensureGradient s gp).2).gradient q = some g → g.1 ^ 2 + g.2 ^ 2 = 1 := by
  intro q g hq
  revert hq
  unfold ensureGradient
  split
  · exact hinv q g
  · show (if q = gp then some (generateGradient (s.supply s.counter)) else s.gradient q) =
      some g → _
    by_cases hq2 : q = gp
    · rw [if_pos hq2]
      intro hg
      have hg2 := Option.some.inj hg
      rw [← hg2]
      exact generateGradient_unit _ (hsup s.counter)
    · rw [if_neg hq2]
      exact hinv q g

/-- C9 (confirmed): (i) when every cached gradient of a 2D factory is
unit-length and the raw Gaussian draws are never the zero vector (on the zero
vector Python's sum ** -0.5 raises before anything could be stored), every
gradient cached after a get\_plain\_noise call is unit-length — its squared
components sum to 1; (ii) once a gradient has been generated for a lattice
point it is never overwritten: every cache entry survives a
get\_plain\_noise call with exactly its value. -/
theorem noise_gradient_invariants :
    (∀ (s : PerlinNoiseFactory) (x y : ℝ) (q : ℤ × ℤ) (g : ℝ × ℝ),
        (∀ q2 g2, s.gradient q2 = some g2 → g2.1 ^ 2 + g2.2 ^ 2 = 1) →
        (∀ n, s.supply n ≠ (0, 0)) →
        (getPlainNoise x y s).2.gradient q = some g → g.1 ^ 2 + g.2 ^ 2 = 1) ∧
    (∀ (s : PerlinNoiseFactory) (x y : ℝ) (q : ℤ × ℤ) (g : ℝ × ℝ),
        s.gradient q = some g → (getPlainNoise x y s).2.gradient q = some g) := by
  constructor
  · intro s x y q g hinv hsup hq
    rw [getPlainNoise_snd] at hq
    have hsup1 : ∀ n, ((ensureGradient s (⌊x⌋, ⌊y⌋)).2).supply n ≠ (0, 0) := by
      rw [ensureGradient_supply]; exact hsup
    have hsup2 : ∀ n, ((ensureGradient (ensureGradient s (⌊x⌋, ⌊y⌋)).2
        (⌊x⌋, ⌊y⌋ + 1)).2).supply n ≠ (0, 0) := by
      rw [ensureGradient_supply]; exact hsup1
    have hsup3 : ∀ n, ((ensureGradient (ensureGradient (ensureGradient s (⌊x⌋, ⌊y⌋)).2
        (⌊x⌋, ⌊y⌋ + 1)).2 (⌊x⌋ + 1, ⌊y⌋)).2).supply n ≠ (0, 0) := by
      rw [ensureGradient_supply]; exact hsup2
    exact ensureGradient_unit_inv _
      (ensureGradient_unit_inv _
        (ensureGradient_unit_inv _
          (ensureGradient_unit_inv _ hinv hsup) hsup1) hsup2) hsup3 q g hq
  · intro s x y q g hq
    exact getPlainNoise_le x y s q g hq

/-- C9 witness: from the empty-cache fixture with supply (1, 0), the gradient
cached for the lattice point (1, 1) by get\_plain\_noise at (0, 0) is the
normalised (1, 0) and its squared components sum to 1; and the preloaded
entry at (9, 9) survives a get\_plain\_noise call with its exact value. -/
theorem noise_gradient_invariants_witness :
    (generateGradient (1, 0)).1 ^ 2 + (generateGradient (1, 0)).2 ^ 2 = 1 ∧
    (getPlainNoise 0 0 pnfPreloaded).2.gradient (9, 9) = some (0, 1) := by
  constructor
  · have hcache : (getPlainNoise 0 0 pnfFixture).2.gradient (1, 1) =
        some (generateGradient (1, 0)) := by
      rw [getPlainNoise_snd]
      norm_num [ensureGradient, pnfFixture, Int.floor_zero, Prod.ext_iff]
    exact noise_gradient_invariants.1 pnfFixture 0 0 (1, 1) (generateGradient (1, 0))
      (by intro q2 g2 hq2; simp [pnfFixture] at hq2)
      (by
        intro n
        simp only [pnfFixture]
        intro hcontra
        rw [Prod.ext_iff] at hcontra
        exact one_ne_zero hcontra.1)
      hcache
  · exact noise_gradient_invariants.2 pnfPreloaded 0 0 (9, 9) (0, 1)
      (by simp [pnfPreloaded])

/-! ## Theorems: PerlinPen and perlinGlyph (claims C3 and C10) -/

/-- C3 (corrected), counterexample to the original claim: moving from
prev = (0,0) towards next = (2,0) with intensity 0, the code outputs the
midpoint (1,0) — not next = (2,0) as the claimed formula
next + intensity·noise·(cos(angle+90), sin(angle+90)) yields (here the whole
displacement term vanishes because intensity = 0, whatever the noise value
sampled at the midpoint is). -/
theorem perlin_displace_claim_counterexample :
    (perlinLineTo 0 pnfFixture (0, 0) (2, 0)).1 ≠
      specNoiseDisplace (0, 0) (2, 0) 0 ((pnfCall pnfFixture 1 0).1) := by
  intro h
  have h1 := congrArg Prod.fst h
  simp only [perlinLineTo, specNoiseDisplace, calcMidPoint, calcAngle, lerp] at h1
  norm_num at h1

/-- C3 (amended): for every consecutive pair (prev, next), the noise
displacer outputs — in place of next — the point
mid + intensity·noise·(cos(a+90), sin(a+90)), where mid is the midpoint of
prev and next, noise is the field sampled at mid, and
a = atan2(prev.y − next.y, prev.x − next.x) is the travel angle taken from
next back to prev (the source's calcAngle(pt, lastPt) argument order; the
+90 is indeed added to the raw radians value). -/
theorem perlin_displace_amended (intensity : ℝ) (fs : PerlinNoiseFactory)
    (prev next : Point) :
    perlinLineTo intensity fs prev next =
      (((next.1 + prev.1) / 2 +
          intensity * (pnfCall fs ((next.1 + prev.1) / 2) ((next.2 + prev.2) / 2)).1 *
            Real.cos (atan2 (prev.2 - next.2) (prev.1 - next.1) + 90),
        (next.2 + prev.2) / 2 +
          intensity * (pnfCall fs ((next.1 + prev.1) / 2) ((next.2 + prev.2) / 2)).1 *
            Real.sin (atan2 (prev.2 - next.2) (prev.1 - next.1) + 90)),
       (pnfCall fs ((next.1 + prev.1) / 2) ((next.2 + prev.2) / 2)).2) := by
  have hx : lerp (1 / 2) next.1 prev.1 = (next.1 + prev.1) / 2 := by unfold lerp; ring
  have hy : lerp (1 / 2) next.2 prev.2 = (next.2 + prev.2) / 2 := by unfold lerp; ring
  simp only [perlinLineTo, calcMidPoint, calcAngle, hx, hy]
  exact Prod.ext (Prod.ext (by ring) (by ring)) rfl

/-- C10 (confirmed): applying the noise displacement to a glyph with zero
contours returns the glyph unchanged and the factory state unchanged — the
early length-0 return happens before any pen is built, so no pen operation is
performed and the noise field is never sampled. -/
theorem perlinGlyph_empty_identity (intensity : ℝ) (factory : PerlinNoiseFactory) :
    perlinGlyph [] intensity factory = Except.ok ([], factory) := by
  rfl

end StrokeScribbler
